import Mathlib

/-!
Shallow embedding of the numeric core of the cello repository, translated
from cello.py: the bandwidth resolver determine_kde_bw and the cello
function (evaluation grid, Gaussian-like kernel weights, normalized
density, stacking basis threading, ribbon geometry and color blending).
Python exceptions are modelled with Except; the error numpy raises when
reducing an empty array is modelled explicitly.  All arithmetic is exact
real arithmetic.
-/

noncomputable section

/-- Bandwidth hint: Python None, a string keyword, a number, or a sequence
of explicit per-series bandwidths. -/
inductive Hint where
  | none
  | str (s : String)
  | num (r : ℝ)
  | arr (l : List ℝ)

/-- ValueError cases raised by determine_kde_bw. -/
inductive BWError where
  | invalidHint
  | unknownRule

/-- numpy mean of a list (model; division by a zero length yields 0). -/
def npMean (l : List ℝ) : ℝ := l.sum / l.length

/-- numpy std with ddof 0: the square root of the mean squared deviation. -/
def npStd (l : List ℝ) : ℝ :=
  Real.sqrt (npMean (l.map (fun v => (v - npMean l) ^ 2)))

open Classical in
/-- Insertion into an ascending sorted list. -/
def insertSorted (x : ℝ) : List ℝ → List ℝ
  | [] => [x]
  | y :: ys => if x ≤ y then x :: y :: ys else y :: insertSorted x ys

/-- Ascending insertion sort, modelling the sorting inside numpy percentile. -/
def sortAsc (l : List ℝ) : List ℝ := l.foldr insertSorted []

/-- numpy percentile with the default linear interpolation between order
statistics at the virtual index (n - 1) * q / 100. -/
def npPercentile (l : List ℝ) (q : ℝ) : ℝ :=
  let s := sortAsc l
  let h := ((s.length : ℝ) - 1) * q / 100
  let lo := s.getD (Int.floor h).toNat 0
  let hi := s.getD ((Int.floor h).toNat + 1) lo
  lo + (h - ((Int.floor h : ℤ) : ℝ)) * (hi - lo)

/-- The single-series branch of determine_kde_bw: a numeric hint is returned
directly, otherwise the scott or silverman rule is applied, and an unknown
rule raises. -/
def determine_kde_bw_1d (values : List ℝ) (hint : Hint) (rule : String) :
    Except BWError ℝ :=
  match hint with
  | Hint.num r => Except.ok r
  | _ =>
    if rule = "scott" then
      Except.ok (npStd values * (values.length : ℝ) ^ (-(1:ℝ) / 5))
    else if rule = "silverman" then
      Except.ok (((values.length : ℝ) * 3 / 4) ^ (-(1:ℝ) / 5)
        * min (npStd values)
            ((npPercentile values 75 - npPercentile values 25) / 1.349))
    else Except.error BWError.unknownRule

/-- Exception-propagating map over the series of a collection, modelling the
tuple comprehension of the local branch. -/
def mapExcept (f : List ℝ → Except BWError ℝ) :
    List (List ℝ) → Except BWError (List ℝ)
  | [] => Except.ok []
  | v :: vs =>
    match f v with
    | Except.error e => Except.error e
    | Except.ok b =>
      match mapExcept f vs with
      | Except.error e => Except.error e
      | Except.ok bs => Except.ok (b :: bs)

/-- The multi-series branch of determine_kde_bw: None and global compute one
bandwidth from the flattened data and repeat it, local resolves each series
with hint None, a number is repeated, a sequence of matching length is
returned verbatim, and anything else raises the invalid hint error. -/
def determine_kde_bw (values : List (List ℝ)) (hint : Hint) (rule : String) :
    Except BWError (List ℝ) :=
  match hint with
  | Hint.none =>
    match determine_kde_bw_1d values.flatten Hint.none rule with
    | Except.error e => Except.error e
    | Except.ok b => Except.ok (List.replicate values.length b)
  | Hint.str s =>
    if s = "global" then
      match determine_kde_bw_1d values.flatten Hint.none rule with
      | Except.error e => Except.error e
      | Except.ok b => Except.ok (List.replicate values.length b)
    else if s = "local" then
      mapExcept (fun series => determine_kde_bw_1d series Hint.none rule) values
    else Except.error BWError.invalidHint
  | Hint.num r => Except.ok (List.replicate values.length r)
  | Hint.arr l =>
    if l.length = values.length then Except.ok l
    else Except.error BWError.invalidHint

/-- Minimum of a list as used on nonempty numpy arrays. -/
def listMin : List ℝ → ℝ
  | [] => 0
  | x :: xs => xs.foldl min x

/-- Maximum of a list as used on nonempty numpy arrays. -/
def listMax : List ℝ → ℝ
  | [] => 0
  | x :: xs => xs.foldl max x

/-- numpy linspace with n evenly spaced points from a to b inclusive; for
n = 1 the division by zero in Lean reproduces the numpy result [a]. -/
def linspace (a b : ℝ) (n : ℕ) : List ℝ :=
  (List.range n).map (fun (i : ℕ) => a + (i : ℝ) * (b - a) / ((n : ℝ) - 1))

/-- Evaluation grid over the sample range extended by 3 bandwidths. -/
def grid (values : List ℝ) (bw : ℝ) (points : ℕ) : List ℝ :=
  linspace (listMin values - 3 * bw) (listMax values + 3 * bw) points

/-- Kernel weight between grid point x and sample v. -/
def weight (bw x v : ℝ) : ℝ := Real.exp (-(x - v) ^ 2 / bw ^ 2)

/-- Row sum of the weight matrix: the kernel weights of one grid point
against all samples, summed. -/
def rowSum (values : List ℝ) (bw x : ℝ) : ℝ := (values.map (weight bw x)).sum

/-- Total kernel weight of the whole grid times samples matrix. -/
def totalW (values : List ℝ) (bw : ℝ) (points : ℕ) : ℝ :=
  ((grid values bw points).map (rowSum values bw)).sum

/-- Normalized scaled density: scale times the per-grid-point weight sums
divided by the total weight. -/
def density (values : List ℝ) (bw scale : ℝ) (points : ℕ) : List ℝ :=
  (grid values bw points).map
    (fun x => scale * rowSum values bw x / totalW values bw points)

/-- The density actually stored and returned: the basis is added elementwise
when present. -/
def stackedDensity (values : List ℝ) (basis : Option (List ℝ))
    (bw scale : ℝ) (points : ℕ) : List ℝ :=
  match basis with
  | Option.none => density values bw scale points
  | Option.some b =>
    List.zipWith (fun a c => a + c) (density values bw scale points) b

/-- Fatal errors of the cello pipeline: bandwidth resolution errors, and the
error numpy raises when reducing an empty series, the only way the kernel
weight sum can vanish in exact arithmetic. -/
inductive CelloError where
  | emptyOrDegenerate
  | bwError (e : BWError)

/-- The numeric part of the solo return dictionary: grid points and density. -/
structure CelloResult where
  pts : List ℝ
  density : List ℝ

/-- Numeric core of a solo cello call with resolved bandwidth: fails on an
empty series (numpy min raises there), otherwise returns the grid and the
optionally stacked density. -/
def cello1d (values : List ℝ) (basis : Option (List ℝ)) (bw scale : ℝ)
    (points : ℕ) : Except CelloError CelloResult :=
  match values with
  | [] => Except.error CelloError.emptyOrDegenerate
  | _ =>
    Except.ok ⟨grid values bw points, stackedDensity values basis bw scale points⟩

/-- Basis update after one series of the orchestrator loop: when a basis is
threaded, the returned density of the series just drawn is added onto it. -/
def basisNext (basis : Option (List ℝ)) (d : List ℝ) : Option (List ℝ) :=
  match basis with
  | Option.none => Option.none
  | Option.some b => Option.some (List.zipWith (fun a c => a + c) b d)

/-- The multi-series loop: per-series solo call with the threaded basis,
with errors propagating and aborting the loop. -/
def celloLoop : List (List ℝ) → Option (List ℝ) → List ℝ → ℝ → ℕ →
    Except CelloError (List CelloResult)
  | [], _, _, _, _ => Except.ok []
  | v :: vs, basis, bws, scale, points =>
    match cello1d v basis (bws.headD 0) scale points with
    | Except.error e => Except.error e
    | Except.ok r =>
      match celloLoop vs (basisNext basis r.density) bws.tail scale points with
      | Except.error e => Except.error e
      | Except.ok rs => Except.ok (r :: rs)

/-- The 2-D entry point: the bandwidth hint is resolved first, so a
bandwidth error aborts the call before any density computation. -/
def cello2d (values : List (List ℝ)) (hint : Hint) (rule : String)
    (basis : Option (List ℝ)) (scale : ℝ) (points : ℕ) :
    Except CelloError (List CelloResult) :=
  match determine_kde_bw values hint rule with
  | Except.error e => Except.error (CelloError.bwError e)
  | Except.ok bws => celloLoop values basis bws scale points

/-- The sequence of bases passed to the successive series of the loop,
mirroring the basis threading of celloLoop. -/
def basisTrace : List (List ℝ) → Option (List ℝ) → List ℝ → ℝ → ℕ →
    List (Option (List ℝ))
  | [], _, _, _, _ => []
  | v :: vs, basis, bws, scale, points =>
    basis :: basisTrace vs
      (basisNext basis (stackedDensity v basis (bws.headD 0) scale points))
      bws.tail scale points

/-- The hints the 2-D resolver rejects: a string other than global or local,
or a sequence whose length differs from the series count. -/
def invalidHintP (hint : Hint) (n : ℕ) : Prop :=
  (∃ s, hint = Hint.str s ∧ s ≠ "global" ∧ s ≠ "local")
    ∨ (∃ l, hint = Hint.arr l ∧ l.length ≠ n)

/-- The ribbon value-axis coordinates (the two yy rows of the source),
including the side selection, the basis lower boundary, the closing
concatenation for the two-sided stacked shape, and position offsetting. -/
structure Ribbon where
  row0 : List ℝ
  row1 : List ℝ

/-- Builds the yy rows from the stacked density, basis, side and position. -/
def ribbonYY (y : List ℝ) (basis : Option (List ℝ)) (side : String)
    (pos : ℝ) : Ribbon :=
  let s : ℝ := if side = "right" ∨ side = "left" then 0 else 1
  match basis with
  | Option.none =>
    ⟨y.map (fun v => v + pos),
      (y.map (fun v => -v * s)).map (fun v => v + pos)⟩
  | Option.some b =>
    if side = "left" then
      ⟨y.map (fun v => v + pos), b.map (fun v => v + pos)⟩
    else if side = "right" then
      ⟨(y.map (fun v => -v)).map (fun v => v + pos),
        (b.map (fun v => -v)).map (fun v => v + pos)⟩
    else
      ⟨(y ++ (y.map (fun v => -v)).reverse).map (fun v => v + pos),
        (b ++ (b.map (fun v => -v)).reverse).map (fun v => v + pos)⟩

/-- The ribbon geometry of a solo cello computed from the raw inputs. -/
def celloRibbon (values : List ℝ) (basis : Option (List ℝ)) (bw scale : ℝ)
    (points : ℕ) (side : String) (pos : ℝ) : Ribbon :=
  ribbonYY (stackedDensity values basis bw scale points) basis side pos

/-- The kernel weight matrix w: one row per grid point. -/
def weightMatrix (values : List ℝ) (bw : ℝ) (points : ℕ) : List (List ℝ) :=
  (grid values bw points).map (fun x => values.map (weight bw x))

/-- Color re-sharpening: w raised elementwise to the power (bw / cbw) ^ 2. -/
def sharpen (w : List (List ℝ)) (bw cbw : ℝ) : List (List ℝ) :=
  w.map (fun row => row.map (fun v => v ^ (((bw / cbw) ^ 2 : ℝ))))

/-- numpy clip to the unit interval. -/
def clip01 (v : ℝ) : ℝ := min (max v 0) 1

/-- Per grid point, the weighted average of the per-sample RGBA colors with
the given weight row, each channel clipped to the unit interval after
averaging. -/
def blendColors (w : List (List ℝ)) (c : List (List ℝ)) : List (List ℝ) :=
  w.map (fun row =>
    (List.range 4).map (fun k =>
      clip01 ((List.zipWith (fun wj cj => wj * cj.getD k 0) row c).sum / row.sum)))

/-- The blended per-grid-point color field of a solo cello: the density
kernel weights, re-sharpened by the color bandwidth, blended with the
per-sample colors. -/
def colorField (values : List ℝ) (c : List (List ℝ)) (bw cbw : ℝ)
    (points : ℕ) : List (List ℝ) :=
  blendColors (sharpen (weightMatrix values bw points) bw cbw) c

/-! Helper lemmas about the embedded definitions. -/

theorem length_linspace (a b : ℝ) (n : ℕ) : (linspace a b n).length = n := by
  unfold linspace
  rw [List.length_map, List.length_range]

theorem linspace_one (a b : ℝ) : linspace a b 1 = [a] := by
  unfold linspace
  have h : List.range 1 = [0] := rfl
  rw [h]
  norm_num

theorem grid_length (values : List ℝ) (bw : ℝ) (points : ℕ) :
    (grid values bw points).length = points := by
  simp [grid, length_linspace]

theorem grid_ne_nil (values : List ℝ) (bw : ℝ) (points : ℕ)
    (hp : 1 ≤ points) : grid values bw points ≠ [] := by
  have h := grid_length values bw points
  intro hnil
  rw [hnil] at h
  simp at h
  omega

theorem rowSum_pos (values : List ℝ) (bw x : ℝ) (hne : values ≠ []) :
    0 < rowSum values bw x := by
  apply List.sum_pos
  · intro a ha
    rcases List.mem_map.mp ha with ⟨v, hv, rfl⟩
    exact Real.exp_pos _
  · simpa using hne

theorem totalW_pos (values : List ℝ) (bw : ℝ) (points : ℕ)
    (hne : values ≠ []) (hp : 1 ≤ points) : 0 < totalW values bw points := by
  apply List.sum_pos
  · intro a ha
    rcases List.mem_map.mp ha with ⟨x, hx, rfl⟩
    exact rowSum_pos values bw x hne
  · simpa using grid_ne_nil values bw points hp

theorem sum_map_const_mul (c : ℝ) (f : ℝ → ℝ) (l : List ℝ) :
    (l.map (fun x => c * f x)).sum = c * (l.map f).sum := by
  induction l with
  | nil => simp
  | cons x xs ih => simp [ih, mul_add]

theorem density_sum (values : List ℝ) (bw scale : ℝ) (points : ℕ)
    (hne : values ≠ []) (hp : 1 ≤ points) :
    (density values bw scale points).sum = scale := by
  have hT := totalW_pos values bw points hne hp
  have h1 : density values bw scale points
      = (grid values bw points).map
          (fun x => (scale / totalW values bw points) * rowSum values bw x) := by
    unfold density
    congr 1
    funext x
    ring
  rw [h1, sum_map_const_mul]
  have h2 : ((grid values bw points).map (rowSum values bw)).sum
      = totalW values bw points := rfl
  have h3 : (grid values bw points).map (fun x => rowSum values bw x)
      = (grid values bw points).map (rowSum values bw) := rfl
  rw [h3, h2]
  exact div_mul_cancel₀ scale hT.ne'

theorem grid_singleton (v bw : ℝ) : grid [v] bw 1 = [v - 3 * bw] := by
  unfold grid
  rw [linspace_one]
  simp [listMin]

theorem density_singleton (v bw scale : ℝ) : density [v] bw scale 1 = [scale] := by
  have he : weight bw (v - 3 * bw) v ≠ 0 := by
    unfold weight
    exact Real.exp_ne_zero _
  simp [density, grid_singleton, totalW, rowSum, mul_div_assoc, div_self he]

theorem mapExcept_length (f : List ℝ → Except BWError ℝ)
    (l : List (List ℝ)) :
    ∀ bs, mapExcept f l = Except.ok bs → bs.length = l.length := by
  induction l with
  | nil =>
    intro bs h
    simp [mapExcept] at h
    simp [← h]
  | cons v vs ih =>
    intro bs h
    unfold mapExcept at h
    cases hf : f v with
    | error e => rw [hf] at h; simp at h
    | ok b =>
      rw [hf] at h
      cases hm : mapExcept f vs with
      | error e => rw [hm] at h; simp at h
      | ok cs =>
        rw [hm] at h
        simp at h
        have hcs := ih cs hm
        simp [← h, hcs]

theorem map_neg_add_eq (l : List ℝ) (pos : ℝ) :
    (l.map (fun v => -v)).map (fun v => v + pos)
      = (l.map (fun v => v + pos)).map (fun v => 2 * pos - v) := by
  simp only [List.map_map]
  congr 1
  funext v
  simp only [Function.comp]
  ring

theorem map_append_reverse (a : List ℝ) (pos : ℝ) :
    (a ++ (a.map (fun v => -v)).reverse).map (fun v => v + pos)
      = a.map (fun v => v + pos)
          ++ ((a.map (fun v => -v)).map (fun v => v + pos)).reverse := by
  simp [List.map_append, List.map_reverse]

theorem ribbonYY_some_left (y b : List ℝ) (pos : ℝ) :
    ribbonYY y (Option.some b) "left" pos
      = ⟨y.map (fun v => v + pos), b.map (fun v => v + pos)⟩ := by
  simp [ribbonYY]

theorem ribbonYY_some_right (y b : List ℝ) (pos : ℝ) :
    ribbonYY y (Option.some b) "right" pos
      = ⟨(y.map (fun v => -v)).map (fun v => v + pos),
          (b.map (fun v => -v)).map (fun v => v + pos)⟩ := by
  simp [ribbonYY]

theorem ribbonYY_some_both (y b : List ℝ) (pos : ℝ) :
    ribbonYY y (Option.some b) "both" pos
      = ⟨(y ++ (y.map (fun v => -v)).reverse).map (fun v => v + pos),
          (b ++ (b.map (fun v => -v)).reverse).map (fun v => v + pos)⟩ := by
  simp [ribbonYY]

theorem ribbonYY_none_oneside (y : List ℝ) (pos : ℝ) (side : String)
    (hside : side = "left" ∨ side = "right") :
    ribbonYY y Option.none side pos
      = ⟨y.map (fun v => v + pos), y.map (fun v => pos)⟩ := by
  have hs : (if side = "right" ∨ side = "left" then (0:ℝ) else 1) = 0 := by
    rcases hside with rfl | rfl
    · rw [if_pos (Or.inr rfl)]
    · rw [if_pos (Or.inl rfl)]
  simp only [ribbonYY, hs]
  simp [List.map_map]

theorem clip01_mem (v : ℝ) : 0 ≤ clip01 v ∧ clip01 v ≤ 1 := by
  unfold clip01
  exact ⟨le_min (le_max_right v 0) zero_le_one, min_le_right _ _⟩

theorem clip01_zero : clip01 (0:ℝ) = 0 := by
  unfold clip01
  norm_num

theorem colorField_zeros :
    colorField [(0:ℝ)] [[0, 0, 0, 0]] 1 1 1 = [[0, 0, 0, 0]] := by
  have hget : ∀ k : ℕ, List.getD [(0:ℝ), 0, 0, 0] k 0 = 0 := by
    intro k
    rcases k with _ | _ | _ | _ | k <;> simp [List.getD]
  simp only [colorField, blendColors, sharpen, weightMatrix, grid_singleton,
    List.map_cons, List.map_nil, List.zipWith_cons_cons, List.zipWith_nil_right,
    hget, mul_zero, List.sum_cons, List.sum_nil, add_zero, zero_div, clip01_zero]
  rfl

/-! Claim theorems. -/

/-- C3 (amended): for every nonempty series, positive bandwidth and at least
one grid point, the density equals the normalized kernel formula (scale times
the per-point weight sum over the total weight of the whole matrix), its
values are nonnegative whenever scale is nonnegative, and its sum over the
whole grid equals scale exactly. -/
theorem c3_density_normalization (values : List ℝ) (bw scale : ℝ)
    (points : ℕ) (hne : values ≠ []) (hbw : 0 < bw) (hp : 1 ≤ points) :
    density values bw scale points
        = (grid values bw points).map (fun x =>
            scale * (values.map (fun v => Real.exp (-(x - v) ^ 2 / bw ^ 2))).sum
              / ((grid values bw points).map (fun z =>
                  (values.map (fun v => Real.exp (-(z - v) ^ 2 / bw ^ 2))).sum)).sum)
      ∧ (0 ≤ scale → ∀ y ∈ density values bw scale points, 0 ≤ y)
      ∧ (density values bw scale points).sum = scale := by
  refine ⟨rfl, ?_, density_sum values bw scale points hne hp⟩
  intro hs y hy
  rcases List.mem_map.mp hy with ⟨x, hx, rfl⟩
  have h1 : 0 < rowSum values bw x := rowSum_pos values bw x hne
  have h2 : 0 < totalW values bw points := totalW_pos values bw points hne hp
  exact div_nonneg (mul_nonneg hs h1.le) h2.le

/-- C3 witness: at the concrete series [0] with bandwidth 1, scale 1 and one
grid point, the density sums to the scale. -/
theorem c3_witness : (density [(0:ℝ)] 1 1 1).sum = 1 :=
  (c3_density_normalization [0] 1 1 1 (by simp) (by norm_num) (by norm_num)).2.2

/-- C3 counterexample to the original claim, which asserted nonnegativity for
every scale: with scale -1 the density contains a negative value. -/
theorem c3_negative_scale_counterexample :
    ¬ (∀ y ∈ density [(0:ℝ)] 1 (-1) 1, 0 ≤ y) := by
  intro h
  have hm : (-1 : ℝ) ∈ density [(0:ℝ)] 1 (-1) 1 := by
    rw [density_singleton]
    simp
  have := h (-1) hm
  linarith

/-- C4: in exact arithmetic the total kernel weight vanishes only for an
empty series, and there the solo pipeline fails with the empty-or-degenerate
error instead of returning any (possibly NaN-bearing) result arrays. -/
theorem c4_zero_weight_is_fatal (values : List ℝ) (bw : ℝ) (points : ℕ)
    (hp : 1 ≤ points) (h0 : totalW values bw points = 0) :
    values = []
      ∧ ∀ basis scale, cello1d values basis bw scale points
          = Except.error CelloError.emptyOrDegenerate := by
  have hv : values = [] := by
    by_contra hne
    exact absurd h0 (totalW_pos values bw points hne hp).ne'
  subst hv
  exact ⟨rfl, fun basis scale => rfl⟩

/-- C4 witness: the empty series has zero total kernel weight and the solo
pipeline fails on it. -/
theorem c4_witness :
    cello1d ([] : List ℝ) Option.none 1 1 1
      = Except.error CelloError.emptyOrDegenerate :=
  (c4_zero_weight_is_fatal [] 1 1 (by norm_num)
    (by
      have h : rowSum ([] : List ℝ) 1 = fun x => (0:ℝ) := funext fun x => rfl
      simp [totalW, h])).2 Option.none 1

/-- C5: for a nonempty series with a non-numeric hint and rule silverman,
the resolver returns (n*3/4)^(-1/5) * min(std, IQR/1.349) where IQR is the
75th minus the 25th percentile. -/
theorem c5_silverman (values : List ℝ) (hint : Hint) (hne : values ≠ [])
    (hnum : ∀ r, hint ≠ Hint.num r) :
    determine_kde_bw_1d values hint "silverman"
      = Except.ok (((values.length : ℝ) * 3 / 4) ^ (-(1:ℝ) / 5)
          * min (npStd values)
              ((npPercentile values 75 - npPercentile values 25) / 1.349)) := by
  cases hint with
  | num r => exact absurd rfl (hnum r)
  | none => rfl
  | str s => rfl
  | arr l => rfl

/-- C5 witness at the concrete series [1] with hint None. -/
theorem c5_witness :
    determine_kde_bw_1d [(1:ℝ)] Hint.none "silverman"
      = Except.ok ((([(1:ℝ)].length : ℝ) * 3 / 4) ^ (-(1:ℝ) / 5)
          * min (npStd [(1:ℝ)])
              ((npPercentile [(1:ℝ)] 75 - npPercentile [(1:ℝ)] 25) / 1.349)) :=
  c5_silverman [1] Hint.none (by simp) (fun r h => nomatch h)

/-- C10: with a basis supplied the returned density field is the elementwise
sum of the raw normalized scaled density and the basis, and with no basis it
is the raw normalized scaled density alone. -/
theorem c10_density_includes_basis (values basis : List ℝ) (bw scale : ℝ)
    (points : ℕ) (hne : values ≠ []) :
    cello1d values (Option.some basis) bw scale points
        = Except.ok ⟨grid values bw points,
            List.zipWith (fun a c => a + c) (density values bw scale points) basis⟩
      ∧ cello1d values Option.none bw scale points
        = Except.ok ⟨grid values bw points, density values bw scale points⟩ := by
  cases values with
  | nil => exact absurd rfl hne
  | cons v vs => exact ⟨rfl, rfl⟩

/-- C10 witness at a concrete series and basis. -/
theorem c10_witness :
    cello1d [(0:ℝ)] (Option.some [5]) 1 1 1
      = Except.ok ⟨grid [(0:ℝ)] 1 1,
          List.zipWith (fun a c => a + c) (density [(0:ℝ)] 1 1 1) [5]⟩ :=
  (c10_density_includes_basis [0] [5] 1 1 1 (by simp)).1

/-- C1 (code bug): on the 2-D input [[0,0],[0,2]] with rule scott, hint None
takes the global branch (one bandwidth from the flattened data, repeated),
while hint local computes per-series bandwidths, so the two calls differ;
the docstring of determine_kde_bw states that None is equivalent to local. -/
theorem c1_none_differs_from_local :
    determine_kde_bw [[(0:ℝ), 0], [0, 2]] Hint.none "scott"
      ≠ determine_kde_bw [[(0:ℝ), 0], [0, 2]] (Hint.str "local") "scott" := by
  intro h
  have h0 : npStd [(0:ℝ), 0] = 0 := by
    norm_num [npStd, npMean]
  have h1 : 0 < npStd [(0:ℝ), 0, 0, 2] * ((4:ℝ) ^ (-(1:ℝ) / 5)) := by
    apply mul_pos
    · rw [npStd]
      apply Real.sqrt_pos.mpr
      norm_num [npMean]
    · exact Real.rpow_pos_of_pos (by norm_num) _
  simp only [determine_kde_bw, determine_kde_bw_1d, mapExcept, List.flatten,
    List.append_nil, List.cons_append, List.nil_append] at h
  norm_num [h0] at h
  rw [if_neg (by decide : ¬ ("local" = "global"))] at h
  simp [List.replicate] at h
  rw [h.1] at h1
  norm_num at h1

/-- C2 (code bug): with three singleton series, unit bandwidths, scale 1, a
one-point grid and initial basis [0], the orchestrator threads the bases
[0], [1], [3] through the loop, while the claimed cumulative-sum law gives
basis [2] for series index 2 (initial basis plus the two unit densities):
the loop adds the returned density, which already contains the basis, back
onto the basis. -/
theorem c2_stacking_double_counts :
    basisTrace [[(0:ℝ)], [0], [0]] (Option.some [0]) [1, 1, 1] 1 1
        = [Option.some [0], Option.some [1], Option.some [3]]
      ∧ List.zipWith (fun a c => a + c)
          (List.zipWith (fun a c => a + c) [(0:ℝ)] (density [0] 1 1 1))
          (density [0] 1 1 1) = [2]
      ∧ ([(3:ℝ)] : List ℝ) ≠ [2] := by
  refine ⟨?_, ?_, ?_⟩
  · simp only [basisTrace, basisNext, stackedDensity, density_singleton,
      List.zipWith_cons_cons, List.zipWith_nil_right, List.headD, List.tail]
    norm_num
  · rw [density_singleton]
    norm_num
  · intro h
    have := List.head_eq_of_cons_eq h
    norm_num at this

/-- C6: a hint that is neither None, global, local, a number, nor a sequence
of length n makes the whole 2-D call fail with the invalid-hint bandwidth
error; the failure happens while resolving bandwidths, before the loop, so
no per-series result is produced. -/
theorem c6_invalid_hint_is_eager (values : List (List ℝ)) (hint : Hint)
    (rule : String) (basis : Option (List ℝ)) (scale : ℝ) (points : ℕ)
    (h : invalidHintP hint values.length) :
    cello2d values hint rule basis scale points
      = Except.error (CelloError.bwError BWError.invalidHint) := by
  rcases h with ⟨s, rfl, hg, hl⟩ | ⟨l, rfl, hlen⟩
  · simp [cello2d, determine_kde_bw, hg, hl]
  · simp [cello2d, determine_kde_bw, hlen]

/-- C6 witness: three series with a bandwidth hint array of length two. -/
theorem c6_witness :
    cello2d [[(1:ℝ)], [2], [3]] (Hint.arr [1, 2]) "scott" Option.none 10 100
      = Except.error (CelloError.bwError BWError.invalidHint) :=
  c6_invalid_hint_is_eager [[(1:ℝ)], [2], [3]] (Hint.arr [1, 2]) "scott"
    Option.none 10 100 (Or.inr ⟨[1, 2], rfl, by simp⟩)

/-- C7 (amended): when a stacking basis is supplied, the right-sided ribbon
is the exact reflection of the left-sided one about the position baseline
(both rows), and the two-sided ribbon is the concatenation of the left rows
with the reversed right rows; without a basis, left and right produce
identical ribbons (the lower row is zeroed, not negated). -/
theorem c7_side_selection (values b : List ℝ) (bw scale : ℝ) (points : ℕ)
    (pos : ℝ) :
    ((celloRibbon values (Option.some b) bw scale points "right" pos).row0
        = (celloRibbon values (Option.some b) bw scale points "left" pos).row0.map
            (fun v => 2 * pos - v)
      ∧ (celloRibbon values (Option.some b) bw scale points "right" pos).row1
        = (celloRibbon values (Option.some b) bw scale points "left" pos).row1.map
            (fun v => 2 * pos - v)
      ∧ (celloRibbon values (Option.some b) bw scale points "both" pos).row0
        = (celloRibbon values (Option.some b) bw scale points "left" pos).row0
            ++ ((celloRibbon values (Option.some b) bw scale points "right" pos).row0).reverse
      ∧ (celloRibbon values (Option.some b) bw scale points "both" pos).row1
        = (celloRibbon values (Option.some b) bw scale points "left" pos).row1
            ++ ((celloRibbon values (Option.some b) bw scale points "right" pos).row1).reverse)
      ∧ celloRibbon values Option.none bw scale points "left" pos
        = celloRibbon values Option.none bw scale points "right" pos := by
  constructor
  · simp only [celloRibbon, ribbonYY_some_left, ribbonYY_some_right,
      ribbonYY_some_both]
    exact ⟨map_neg_add_eq _ pos, map_neg_add_eq b pos,
      map_append_reverse _ pos, map_append_reverse b pos⟩
  · rw [celloRibbon, celloRibbon,
      ribbonYY_none_oneside _ pos "left" (Or.inl rfl),
      ribbonYY_none_oneside _ pos "right" (Or.inr rfl)]

/-- C7 counterexample: with no stacking basis, the left and right ribbons
coincide instead of being sign-negations about the baseline, refuting the
original claim for every identical single-series input. -/
theorem c7_counterexample :
    ¬ ((celloRibbon [(0:ℝ)] Option.none 1 1 1 "right" 0).row0
        = (celloRibbon [(0:ℝ)] Option.none 1 1 1 "left" 0).row0.map
            (fun v => 2 * 0 - v)) := by
  intro h
  have hd : stackedDensity [(0:ℝ)] Option.none 1 1 1 = [1] := by
    simp [stackedDensity, density_singleton]
  simp only [celloRibbon, ribbonYY, hd] at h
  norm_num at h

/-- C8: every channel of every blended per-grid-point color lies in the unit
interval, for every per-sample RGBA array (including out-of-range values)
and every grid: clipping is applied after the kernel-weighted averaging. -/
theorem c8_colors_clipped (values : List ℝ) (c : List (List ℝ))
    (bw cbw : ℝ) (points : ℕ) :
    ∀ row ∈ colorField values c bw cbw points, ∀ v ∈ row, 0 ≤ v ∧ v ≤ 1 := by
  intro row hrow v hv
  simp only [colorField, blendColors] at hrow
  rcases List.mem_map.mp hrow with ⟨wrow, hw, rfl⟩
  rcases List.mem_map.mp hv with ⟨k, hk, rfl⟩
  exact clip01_mem _

/-- C8 witness at a concrete series and color array. -/
theorem c8_witness : 0 ≤ (0:ℝ) ∧ (0:ℝ) ≤ 1 :=
  c8_colors_clipped [0] [[0, 0, 0, 0]] 1 1 1 [0, 0, 0, 0]
    (by rw [colorField_zeros]; simp) 0 (by simp)

/-- C9 (amended): every successful 2-D bandwidth resolution yields exactly
one value per series; the original strict-positivity part fails because
numeric and sequence hints are returned verbatim. -/
theorem c9_one_value_per_series (values : List (List ℝ)) (hint : Hint)
    (rule : String) (bws : List ℝ)
    (h : determine_kde_bw values hint rule = Except.ok bws) :
    bws.length = values.length := by
  cases hint with
  | none =>
    simp only [determine_kde_bw] at h
    cases hb : determine_kde_bw_1d values.flatten Hint.none rule with
    | error e => rw [hb] at h; simp at h
    | ok v =>
      rw [hb] at h
      simp at h
      simp [← h]
  | str s =>
    simp only [determine_kde_bw] at h
    by_cases hs : s = "global"
    · rw [if_pos hs] at h
      cases hb : determine_kde_bw_1d values.flatten Hint.none rule with
      | error e => rw [hb] at h; simp at h
      | ok v =>
        rw [hb] at h
        simp at h
        simp [← h]
    · rw [if_neg hs] at h
      by_cases hl : s = "local"
      · rw [if_pos hl] at h
        exact mapExcept_length _ values bws h
      · rw [if_neg hl] at h
        simp at h
  | num r =>
    simp only [determine_kde_bw] at h
    simp at h
    simp [← h]
  | arr l =>
    simp only [determine_kde_bw] at h
    by_cases hlen : l.length = values.length
    · rw [if_pos hlen] at h
      simp at h
      simp [← h, hlen]
    · rw [if_neg hlen] at h
      simp at h

/-- C9 counterexample to strict positivity: a numeric hint of -1 is returned
verbatim for every series, and -1 is not positive. -/
theorem c9_counterexample :
    determine_kde_bw [[(0:ℝ)], [0]] (Hint.num (-1)) "scott"
        = Except.ok [-1, -1]
      ∧ ¬ (0:ℝ) < -1 := by
  exact ⟨rfl, by norm_num⟩

/-- C9 witness: a fixed numeric bandwidth on a two-series collection yields
exactly two values. -/
theorem c9_witness : ([(1:ℝ), 1]).length = [[(1:ℝ)], [2]].length :=
  c9_one_value_per_series [[(1:ℝ)], [2]] (Hint.num 1) "scott" [1, 1] rfl

end
